import Mathlib

/-!
Verification of px4tools `ulog.py` (noise characterization and multi-topic
merge).  Floating-point scalars are modelled by `Option ℚ`: `some q` is a
finite value, `none` is NaN.  Comparisons follow IEEE semantics: every
comparison against NaN is false.

Concrete rational constants are written with `mkRat`, and the arithmetic the
embedded code performs uses the kernel-evaluable wrappers `qmul`, `qadd`,
`qsub`, `qdiv` below, each proved equal to the corresponding field operation
on `ℚ`.
-/

set_option autoImplicit false

namespace Px4

/-- Multiplication on `ℚ` through `mkRat` (kernel-evaluable). -/
def qmul (a b : ℚ) : ℚ := mkRat (a.num * b.num) (a.den * b.den)

/-- Addition on `ℚ` through `mkRat` (kernel-evaluable). -/
def qadd (a b : ℚ) : ℚ := mkRat (a.num * (b.den : ℤ) + b.num * (a.den : ℤ)) (a.den * b.den)

/-- Subtraction on `ℚ` through `mkRat` (kernel-evaluable). -/
def qsub (a b : ℚ) : ℚ := mkRat (a.num * (b.den : ℤ) - b.num * (a.den : ℤ)) (a.den * b.den)

/-- Division on `ℚ` through `mkRat` (kernel-evaluable); division by zero
yields zero, as for the field division on `ℚ`. -/
def qdiv (a b : ℚ) : ℚ :=
  let n : ℤ := a.num * (b.den : ℤ)
  let d : ℤ := (a.den : ℤ) * b.num
  if d < 0 then mkRat (-n) d.natAbs else mkRat n d.natAbs

theorem qmul_eq (a b : ℚ) : qmul a b = a * b := by
  rw [qmul, Rat.mkRat_eq_div]
  push_cast
  conv_rhs => rw [← Rat.num_div_den a, ← Rat.num_div_den b]
  rw [div_mul_div_comm]

theorem qadd_eq (a b : ℚ) : qadd a b = a + b := by
  have ha : ((a.den : ℚ)) ≠ 0 := by
    exact_mod_cast a.den_nz
  have hb : ((b.den : ℚ)) ≠ 0 := by
    exact_mod_cast b.den_nz
  rw [qadd, Rat.mkRat_eq_div]
  push_cast
  conv_rhs => rw [← Rat.num_div_den a, ← Rat.num_div_den b]
  rw [div_add_div _ _ ha hb]
  congr 1
  ring

theorem qsub_eq (a b : ℚ) : qsub a b = a - b := by
  have ha : ((a.den : ℚ)) ≠ 0 := by
    exact_mod_cast a.den_nz
  have hb : ((b.den : ℚ)) ≠ 0 := by
    exact_mod_cast b.den_nz
  rw [qsub, Rat.mkRat_eq_div]
  push_cast
  conv_rhs => rw [← Rat.num_div_den a, ← Rat.num_div_den b]
  rw [div_sub_div _ _ ha hb]
  congr 1
  ring

theorem qdiv_eq (a b : ℚ) : qdiv a b = a / b := by
  have key : ∀ n d : ℤ,
      (if d < 0 then mkRat (-n) d.natAbs else mkRat n d.natAbs) = (n : ℚ) / (d : ℚ) := by
    intro n d
    by_cases hd : d < 0
    · rw [if_pos hd, Rat.mkRat_eq_div]
      have h1 : ((d.natAbs : ℤ)) = -d := Int.ofNat_natAbs_of_nonpos (le_of_lt hd)
      have h2 : ((d.natAbs : ℚ)) = ((-d : ℤ) : ℚ) := by
        rw [show ((d.natAbs : ℚ)) = (((d.natAbs : ℤ)) : ℚ) from
          (Int.cast_natCast d.natAbs).symm, h1]
      rw [h2, Int.cast_neg, Int.cast_neg, neg_div_neg_eq]
    · rw [if_neg hd, Rat.mkRat_eq_div]
      have h1 : ((d.natAbs : ℤ)) = d := Int.natAbs_of_nonneg (not_lt.mp hd)
      have h2 : ((d.natAbs : ℚ)) = ((d : ℤ) : ℚ) := by
        rw [show ((d.natAbs : ℚ)) = (((d.natAbs : ℤ)) : ℚ) from
          (Int.cast_natCast d.natAbs).symm, h1]
      rw [h2]
  simp only [qdiv]
  rw [key (a.num * (b.den : ℤ)) ((a.den : ℤ) * b.num)]
  conv_rhs => rw [← Rat.num_div_den a, ← Rat.num_div_den b]
  rw [div_eq_mul_inv ((a.num : ℚ) / a.den), inv_div, div_mul_div_comm]
  push_cast
  rfl

/-! ### The root finder and the Allan-deviation root cascade -/

/-- A floating-point cell: `some q` models a finite float, `none` models NaN
(and, in a timedelta index, NaT). -/
abbrev Cell := Option ℚ

/-- Strict `<` on floats: any comparison involving NaN is false. -/
def olt : Cell → Cell → Bool
  | some x, some y => decide (x < y)
  | _, _ => false

/-- Non-strict `≤` on floats: any comparison involving NaN is false. -/
def ole : Cell → Cell → Bool
  | some x, some y => decide (x ≤ y)
  | _, _ => false

/-- A complex number with rational real and imaginary parts, modelling the
complex roots that `numpy.polynomial` returns. -/
structure CQ where
  re : ℚ
  im : ℚ
deriving DecidableEq

/-- Embedding of `_smallest_positive_real_root(roots, min_val, max_val)`:
`res` starts at `0`; if the root list is non-empty, the roots satisfying
`np.isreal(z) and np.real(z) > min_val` are kept (`np.isreal` is an exact
`imag == 0` test), their real parts sorted ascending, and the head of the
sorted list (if any) replaces `res` — `headD 0` captures both the found and
the not-found case, where `res` stays `0`.  Finally `res` is replaced by NaN
when `not np.isfinite(res) or res < min_val or res > max_val`; `res` is a
root's (finite) real part or `0` at that point, so the `isSome` test mirrors
the (always-true) `np.isfinite` check. -/
def smallest_positive_real_root (roots : List CQ) (min_val max_val : Cell) : Cell :=
  let res : Cell :=
    if roots.length > 0 then
      some ((List.insertionSort (fun a b : ℚ => a ≤ b)
        ((roots.filter (fun z => z.im == 0 && olt min_val (some z.re))).map CQ.re)).headD 0)
    else some 0
  if !res.isSome || olt res min_val || olt max_val res then none else res

/-- The root-extraction call made by `plot_autocorrelation` on the roots of
`p - 1/e`: `_smallest_positive_real_root(roots)` with the default bounds
`min_val = 0`, `max_val = 1e6`. -/
def correlation_time_root (roots : List CQ) : Cell :=
  smallest_positive_real_root roots (some 0) (some 1000000)

/-- Embedding of the successive root extraction in `plot_allan_std_dev`
(log-space tau values): `log_tau_0` is searched in `[0, 5]`, `log_tau_1` with
lower bound `log_tau_0` (as computed, NaN included), `log_tau_2` with lower
bound `log_tau_1`; all three searches share the upper bound `5`.  The tau
values returned by the Python function are `10 ** log_tau_i`. -/
def plot_allan_taus (roots0 roots1 roots2 : List CQ) : Cell × Cell × Cell :=
  let log_tau_0 := smallest_positive_real_root roots0 (some 0) (some 5)
  let log_tau_1 := smallest_positive_real_root roots1 log_tau_0 (some 5)
  let log_tau_2 := smallest_positive_real_root roots2 log_tau_1 (some 5)
  (log_tau_0, log_tau_1, log_tau_2)

/-- Modelled from the spec sentence for claim C2 (refinement comparison only):
each root search's lower bound is the previous stage's found value, or `0`
if that stage failed. -/
def specAllanTaus (roots0 roots1 roots2 : List CQ) : Cell × Cell × Cell :=
  let lt0 := smallest_positive_real_root roots0 (some 0) (some 5)
  let lt1 := smallest_positive_real_root roots1 (if lt0.isSome then lt0 else some 0) (some 5)
  let lt2 := smallest_positive_real_root roots2 (if lt1.isSome then lt1 else some 0) (some 5)
  (lt0, lt1, lt2)

/-! ### Basic facts about the root finder -/

theorem sroot_no_qualifying (roots : List CQ) (mn mx : Cell)
    (h : ∀ z ∈ roots, ¬(z.im = 0 ∧ olt mn (some z.re) = true)) :
    smallest_positive_real_root roots mn mx =
      if olt (some 0) mn || olt mx (some 0) then none else some 0 := by
  have hf : roots.filter (fun z => z.im == 0 && olt mn (some z.re)) = [] := by
    rw [List.filter_eq_nil_iff]
    intro z hz
    simp only [Bool.and_eq_true, beq_iff_eq, not_and]
    intro h0 h1
    exact h z hz ⟨h0, h1⟩
  simp only [smallest_positive_real_root, hf, List.map_nil, List.insertionSort,
    List.headD, ite_self, Option.isSome_some, Bool.not_true, Bool.false_or]

theorem sroot_nan_min (roots : List CQ) (mx : Cell)
    (hmx : olt mx (some 0) = false) :
    smallest_positive_real_root roots none mx = some 0 := by
  have h := sroot_no_qualifying roots none mx (by intro z hz hc; simp [olt] at hc)
  rw [h, show olt (some 0) none = false from rfl, Bool.false_or, hmx]
  simp

theorem sroot_some_bounds (roots : List CQ) (mn mx : Cell) (q : ℚ)
    (h : smallest_positive_real_root roots mn mx = some q) :
    olt (some q) mn = false ∧ olt mx (some q) = false := by
  simp only [smallest_positive_real_root] at h
  set res : Cell :=
    (if roots.length > 0 then
      some ((List.insertionSort (fun a b : ℚ => a ≤ b)
        ((roots.filter (fun z => z.im == 0 && olt mn (some z.re))).map CQ.re)).headD 0)
    else some 0) with hres
  by_cases hc : (!res.isSome || olt res mn || olt mx res) = true
  · rw [if_pos hc] at h
    exact Option.noConfusion h
  · rw [if_neg hc] at h
    rw [h] at hc
    simp only [Bool.or_eq_true, not_or] at hc
    exact ⟨Bool.eq_false_iff.mpr hc.1.2, Bool.eq_false_iff.mpr hc.2⟩

/-- Any defined (non-NaN) value returned by a search whose lower bound is
either NaN or a defined value in `[0, 5]`, with upper bound `5`, lies in
`[0, 5]`. -/
theorem sroot_range (roots : List CQ) (mn : Cell) (q : ℚ)
    (hmn : mn = none ∨ ∃ a, mn = some a ∧ 0 ≤ a ∧ a ≤ 5)
    (h : smallest_positive_real_root roots mn (some 5) = some q) :
    0 ≤ q ∧ q ≤ 5 := by
  rcases hmn with hmn | ⟨a, hmn, ha0, ha5⟩
  · subst hmn
    rw [sroot_nan_min roots (some 5) (by norm_num [olt])] at h
    have hq : (0 : ℚ) = q := by simpa using h
    rw [← hq]
    norm_num
  · subst hmn
    have hb := sroot_some_bounds roots (some a) (some 5) q h
    have h1 : ¬(q < a) := by simpa [olt] using hb.1
    have h2 : ¬(5 < q) := by simpa [olt] using hb.2
    constructor
    · linarith [not_lt.mp h1]
    · linarith [not_lt.mp h2]

/-! ### Claim C1 -/

/-- C1 counterexample: with no qualifying roots at all (here: the empty root
list with the `tau_0` bounds, and the correlation-time search with its
default bounds), the search returns the finite value `0`, not NaN, refuting
the claim that a root-not-found outcome is always reported as undefined. -/
theorem c1_counterexample :
    smallest_positive_real_root [] (some 0) (some 5) = some 0 ∧
      correlation_time_root [] = some 0 := by
  constructor <;> rfl

/-- C1 (amended): when no root has exactly zero imaginary part and real part
exceeding `min_val`, the search returns NaN exactly when `0 < min_val` or
`max_val < 0` (NaN comparisons counting as false); otherwise — in particular
for the `tau_0` and correlation-time searches, whose lower bound is `0` — it
returns the finite value `0` (so downstream `tau_0 = 10 ** 0 = 1`). -/
theorem c1_amended (roots : List CQ) (mn mx : Cell)
    (h : ∀ z ∈ roots, ¬(z.im = 0 ∧ olt mn (some z.re) = true)) :
    smallest_positive_real_root roots mn mx =
      if olt (some 0) mn || olt mx (some 0) then none else some 0 :=
  sroot_no_qualifying roots mn mx h

/-- C1 amended, witness: a single real root at `-2` never qualifies with
lower bound `1`, and the search indeed returns NaN there (since `0 < 1`). -/
theorem c1_amended_witness :
    smallest_positive_real_root [⟨-2, 0⟩] (some 1) (some 5) = none := by
  have h := c1_amended [⟨-2, 0⟩] (some 1) (some 5) (by decide)
  rw [h]
  norm_num [olt]

/-! ### Claim C2 -/

/-- C2 counterexample: with `tau_0` roots `{6}` (beyond the upper bound `5`,
so the `tau_0` search fails with NaN) and `tau_1` roots `{2}`, the code
passes NaN — not `0` — as the `tau_1` lower bound: it finds `log_tau_1 = 0`
where searching from lower bound `0` (the claimed behavior, `specAllanTaus`)
would find `2`. -/
theorem c2_counterexample :
    plot_allan_taus [⟨6, 0⟩] [⟨2, 0⟩] [] ≠ specAllanTaus [⟨6, 0⟩] [⟨2, 0⟩] [] := by
  decide

/-- C2 (amended): the `tau_1` search's lower bound is the computed
`log_tau_0` itself — NaN included when that search failed, not `0` — and
likewise for `tau_2`; the three searches do share the upper bound `5`.  When
the `tau_0` stage failed (NaN bound), every root is filtered out and the
`tau_1` search returns `0` (hence `tau_1 = 10 ** 0 = 1`) regardless of its
roots, rather than searching from lower bound `0`. -/
theorem c2_amended (roots0 roots1 roots2 : List CQ)
    (h : (plot_allan_taus roots0 roots1 roots2).1 = none) :
    (plot_allan_taus roots0 roots1 roots2).2.1 = some 0 := by
  simp only [plot_allan_taus] at h ⊢
  rw [h]
  exact sroot_nan_min roots1 (some 5) (by norm_num [olt])

/-- C2 amended, witness: instantiated at the counterexample's inputs. -/
theorem c2_amended_witness :
    (plot_allan_taus [⟨6, 0⟩] [⟨2, 0⟩] []).2.1 = some 0 :=
  c2_amended [⟨6, 0⟩] [⟨2, 0⟩] [] (by decide)

/-! ### Claim C8 -/

/-- C8 counterexample: a lone root `0.1 + 1e-12 i` with near-zero (but not
exactly zero) imaginary part is *not* treated as real: `np.isreal` is an
exact `imag == 0` test, so the root is filtered out and the search falls
back to `0` instead of returning `0.1`. -/
theorem c8_counterexample :
    smallest_positive_real_root [⟨mkRat 1 10, mkRat 1 1000000000000⟩]
      (some 0) (some 5) = some 0 := by
  decide

/-- C8 (amended): on the root set `{-2, 0.1+0i, 0.1+1e-12i, 3}` with
`min = 0`, `max = 5` the search does return `0.1` — the smallest
exactly-real root above `min`, neither the global minimum `-2` nor the
largest root `3` — but the `0.1` comes from the exactly-real root `0.1+0i`;
the near-zero-imaginary copy is excluded by the exact `imag == 0` test and
on its own would not be selected.  (`mkRat 1 10 = 1/10` and
`mkRat 1 1000000000000 = 1e-12`, as the last conjunct records.) -/
theorem c8_amended :
    smallest_positive_real_root
        [⟨-2, 0⟩, ⟨mkRat 1 10, 0⟩, ⟨mkRat 1 10, mkRat 1 1000000000000⟩, ⟨3, 0⟩]
        (some 0) (some 5) = some (mkRat 1 10) ∧
      smallest_positive_real_root [⟨mkRat 1 10, mkRat 1 1000000000000⟩]
        (some 0) (some 5) ≠ some (mkRat 1 10) ∧
      mkRat 1 10 = 1 / 10 ∧ mkRat 1 1000000000000 = 1 / 1000000000000 := by
  refine ⟨by decide, by decide, ?_, ?_⟩ <;>
    rw [Rat.mkRat_eq_div] <;> norm_num

/-! ### Claim C10 -/

/-- C10: every defined (non-NaN) `log_tau` produced by the Allan-deviation
root cascade lies in `[0, 5]`, hence every defined `tau = 10 ** log_tau`
reported by `plot_allan_std_dev` lies in `[1, 10^5]` seconds. -/
theorem c10_tau_range (roots0 roots1 roots2 : List CQ) (q : ℚ)
    (h : (plot_allan_taus roots0 roots1 roots2).1 = some q ∨
         (plot_allan_taus roots0 roots1 roots2).2.1 = some q ∨
         (plot_allan_taus roots0 roots1 roots2).2.2 = some q) :
    (0 ≤ q ∧ q ≤ 5) ∧
      (1 ≤ (10 : ℝ) ^ (q : ℝ) ∧ (10 : ℝ) ^ (q : ℝ) ≤ 100000) := by
  have hlog : 0 ≤ q ∧ q ≤ 5 := by
    simp only [plot_allan_taus] at h
    have h0 : ∀ q0 : ℚ,
        smallest_positive_real_root roots0 (some 0) (some 5) = some q0 →
        0 ≤ q0 ∧ q0 ≤ 5 := by
      intro q0 hq0
      exact sroot_range roots0 (some 0) q0 (Or.inr ⟨0, rfl, le_refl 0, by norm_num⟩) hq0
    have h1 : ∀ q1 : ℚ,
        smallest_positive_real_root roots1
          (smallest_positive_real_root roots0 (some 0) (some 5)) (some 5) = some q1 →
        0 ≤ q1 ∧ q1 ≤ 5 := by
      intro q1 hq1
      cases hc : smallest_positive_real_root roots0 (some 0) (some 5) with
      | none =>
        rw [hc] at hq1
        exact sroot_range roots1 none q1 (Or.inl rfl) hq1
      | some a =>
        rw [hc] at hq1
        exact sroot_range roots1 (some a) q1 (Or.inr ⟨a, rfl, h0 a hc⟩) hq1
    rcases h with h | h | h
    · exact h0 q h
    · exact h1 q h
    · cases hc : smallest_positive_real_root roots1
          (smallest_positive_real_root roots0 (some 0) (some 5)) (some 5) with
      | none =>
        rw [hc] at h
        exact sroot_range roots2 none q (Or.inl rfl) h
      | some b =>
        rw [hc] at h
        exact sroot_range roots2 (some b) q (Or.inr ⟨b, rfl, h1 b hc⟩) h
  refine ⟨hlog, ?_, ?_⟩
  · have hthis : (10 : ℝ) ^ (0 : ℝ) ≤ (10 : ℝ) ^ (q : ℝ) := by
      apply Real.rpow_le_rpow_of_exponent_le (by norm_num)
      exact_mod_cast hlog.1
    simpa [Real.rpow_zero] using hthis
  · have h5 : (10 : ℝ) ^ (q : ℝ) ≤ (10 : ℝ) ^ (5 : ℝ) := by
      apply Real.rpow_le_rpow_of_exponent_le (by norm_num)
      exact_mod_cast hlog.2
    have he : (10 : ℝ) ^ (5 : ℝ) = 100000 := by
      rw [show (5 : ℝ) = ((5 : ℕ) : ℝ) by norm_num, Real.rpow_natCast]
      norm_num
    linarith

/-- C10 witness: with single real roots `1`, `2`, `3`, `log_tau_0 = 1` is
found and `tau_0 = 10` lies within `[1, 10^5]`. -/
theorem c10_tau_range_witness :
    ((0 : ℚ) ≤ 1 ∧ (1 : ℚ) ≤ 5) ∧
      (1 ≤ (10 : ℝ) ^ ((1 : ℚ) : ℝ) ∧ (10 : ℝ) ^ ((1 : ℚ) : ℝ) ≤ 100000) :=
  c10_tau_range [⟨1, 0⟩] [⟨2, 0⟩] [⟨3, 0⟩] 1 (Or.inl (by decide))

/-! ### Data frames and the `PX4MessageDict` store

A pandas `DataFrame` is modelled as a list of named columns of cells plus a
row index; a `PX4MessageDict` is an association list from topic name to
frame, in insertion order (Python 3.7+ `dict` preserves insertion order). -/

/-- A pandas data frame: named columns (in column order) and a row index. -/
structure DFrame where
  cols : List (String × List Cell)
  index : List Cell
deriving DecidableEq

/-- Column lookup in a column list (first match, as for pandas labels). -/
def findCol (cols : List (String × List Cell)) (name : String) : Option (List Cell) :=
  (cols.find? (fun c => c.1 == name)).map (fun c => c.2)

/-- `df[name]` / `df.name`: the named column of a frame. -/
def getCol (df : DFrame) (name : String) : Option (List Cell) :=
  findCol df.cols name

/-- Embedding of the per-topic body of `PX4MessageDict.__init__`: every
column except `timestamp` is renamed to `t_<topic>__f_<column>`, and the
index is set to `pd.TimedeltaIndex(df.timestamp*1e3, unit='ns')`.  `none` is
returned when the `timestamp` column is absent (Python: `AttributeError`). -/
def px4InitTable (topic : String) (df : DFrame) : Option DFrame :=
  match getCol df "timestamp" with
  | some ts =>
    some { cols := df.cols.map (fun c =>
             (if c.1 = "timestamp" then c.1 else "t_" ++ topic ++ "__f_" ++ c.1, c.2)),
           index := ts.map (fun v => v.map (fun q => qmul q 1000)) }
  | none => none

/-- Embedding of `PX4MessageDict.__init__` over the whole store. -/
def px4MessageDictInit : List (String × DFrame) → Option (List (String × DFrame))
  | [] => some []
  | (topic, df) :: rest =>
    match px4InitTable topic df with
    | some dfo =>
      match px4MessageDictInit rest with
      | some store => some ((topic, dfo) :: store)
      | none => none
    | none => none

/-- The failure modes of `PX4MessageDict.concat`:
* `invalidConfig` — `raise IOError('must pass dt or on')`;
* `missingTopic` — `self[topic]` raised `KeyError`;
* `missingColumn` — a needed `timestamp` column is absent;
* `numericError` — `np.arange` invoked with `None`/NaN bounds;
* `badKeys` — `pd.merge_asof` rejected unsorted or null merge keys;
* `assertFailed` — `assert(np.all(np.isfinite(m)))` failed. -/
inductive MergeError
  | invalidConfig
  | missingTopic
  | missingColumn
  | numericError
  | badKeys
  | assertFailed
deriving DecidableEq

/-- `self[topic]` on the store. -/
def lookupTopic (store : List (String × DFrame)) (t : String) : Option DFrame :=
  (store.find? (fun e => e.1 == t)).map (fun e => e.2)

/-- Monotone non-decreasing cells (false on any NaN beyond a singleton). -/
def sortedCells : List Cell → Bool
  | [] => true
  | [_] => true
  | a :: b :: t => ole a b && sortedCells (b :: t)

/-- `pd.merge_asof` requires its keys to be non-null and sorted. -/
def keysValid (ts : List Cell) : Bool :=
  ts.all Option.isSome && sortedCells ts

/-- The as-of match: the greatest row index `j` of the right key column with
`dts[j] ≤ t` — for a sorted key column, the most recent sample at or before
`t` (`pd.merge_asof` default: backward search, exact matches allowed, last
of equal keys). -/
def asofIdx (dts : List Cell) (t : Cell) : Option Nat :=
  ((List.range dts.length).filter (fun j => ole (dts.getD j none) t)).getLast?

/-- The columns of a frame other than the merge key. -/
def nonTsCols (df : DFrame) : List (String × List Cell) :=
  df.cols.filter (fun c => !(c.1 == "timestamp"))

/-- Embedding of `pd.merge_asof(m, df, 'timestamp')`: a left join on the
`m.timestamp` timeline; each non-key column of `df` is sampled at the as-of
match of each timeline entry (or NaN when there is no sample at or before
it).  Key validation mirrors the `ValueError` pandas raises on unsorted or
null keys. -/
def mergeAsofE (m df : DFrame) : Except MergeError DFrame :=
  match getCol m "timestamp", getCol df "timestamp" with
  | some mts, some dts =>
    if keysValid mts && keysValid dts then
      Except.ok
        { cols := m.cols ++ (nonTsCols df).map (fun c =>
            (c.1, mts.map (fun t =>
              match asofIdx dts t with
              | some j => c.2.getD j none
              | none => none))),
          index := m.index }
    else Except.error MergeError.badKeys
  | _, _ => Except.error MergeError.missingColumn

/-- The `for topic in topics: m = pd.merge_asof(m, self[topic], 'timestamp')`
loop of `concat`, in the traversal order of `topics`. -/
def mergeLoop (store : List (String × DFrame)) : DFrame → List String → Except MergeError DFrame
  | m, [] => Except.ok m
  | m, t :: rest =>
    match lookupTopic store t with
    | some df =>
      match mergeAsofE m df with
      | Except.ok m2 => mergeLoop store m2 rest
      | Except.error e => Except.error e
    | none => Except.error MergeError.missingTopic

/-- Forward fill of one column, carrying the last defined value (`acc`). -/
def ffillCol (acc : Cell) : List Cell → List Cell
  | [] => []
  | c :: rest =>
    match c with
    | some v => some v :: ffillCol (some v) rest
    | none => acc :: ffillCol acc rest

/-- Backward fill of one column: a NaN cell takes the next defined value. -/
def bfillCol : List Cell → List Cell
  | [] => []
  | c :: rest =>
    match c with
    | some v => some v :: bfillCol rest
    | none =>
      match bfillCol rest with
      | [] => [none]
      | d :: ds => d :: d :: ds

/-- `m.ffill(inplace=True)` (and `m.pad(...)`, its alias): column-wise
forward fill. -/
def dfFfill (m : DFrame) : DFrame :=
  { cols := m.cols.map (fun c => (c.1, ffillCol none c.2)), index := m.index }

/-- `m.bfill(inplace=True)`: column-wise backward fill. -/
def dfBfill (m : DFrame) : DFrame :=
  { cols := m.cols.map (fun c => (c.1, bfillCol c.2)), index := m.index }

/-- `m.index = pd.TimedeltaIndex(m.timestamp*1e3, unit='ns')`. -/
def setTdIndex (m : DFrame) : DFrame :=
  { cols := m.cols,
    index := ((getCol m "timestamp").getD []).map (fun v => v.map (fun q => qmul q 1000)) }

/-- `np.all(np.isfinite(m))`: every cell of every column is finite. -/
def dfAllFinite (m : DFrame) : Bool :=
  m.cols.all (fun c => c.2.all Option.isSome)

/-- Shared tail of `concat` after the merge timeline has been determined:
build the one-column timeline frame, fold the as-of merges over the selected
topics (all of them when `topics is None`), set the timedelta index, fill
forward, backward, forward again (`ffill`, `bfill`, `pad`), and assert all
values finite. -/
def concatCore (store : List (String × DFrame)) (timestamps : List Cell)
    (topics : Option (List String)) : Except MergeError DFrame :=
  let m0 : DFrame := { cols := [("timestamp", timestamps)], index := [] }
  match mergeLoop store m0 (topics.getD (store.map (fun e => e.1))) with
  | Except.ok m =>
    let m := setTdIndex m
    let m := dfFfill m
    let m := dfBfill m
    let m := dfFfill m
    if dfAllFinite m then Except.ok m else Except.error MergeError.assertFailed
  | Except.error e => Except.error e

/-- `pandas.Series.min()` (NaN skipped; `none` for an all-NaN column). -/
def seriesMin (l : List Cell) : Cell :=
  match l.filterMap id with
  | [] => none
  | x :: xs => some (xs.foldl min x)

/-- `pandas.Series.max()` (NaN skipped; `none` for an all-NaN column). -/
def seriesMax (l : List Cell) : Cell :=
  match l.filterMap id with
  | [] => none
  | x :: xs => some (xs.foldl max x)

/-- One step of the `ts_min` accumulation in `concat`'s fixed-step branch:
`if ts_min is None or ts_t_min < ts_min: ts_min = ts_t_min` (the outer
`Option` is Python's `None`, the inner `Cell` may itself be NaN). -/
def foldMin (acc : Option Cell) (v : Cell) : Option Cell :=
  match acc with
  | none => some v
  | some a => if olt v a then some v else some a

/-- One step of the `ts_max` accumulation (`ts_t_max > ts_max`). -/
def foldMax (acc : Option Cell) (v : Cell) : Option Cell :=
  match acc with
  | none => some v
  | some a => if olt a v then some v else some a

/-- The per-topic `(min, max)` timestamps gathered by the fixed-step branch,
over the given (sorted) key order. -/
def topicMinMax (store : List (String × DFrame)) : List String → Except MergeError (List (Cell × Cell))
  | [] => Except.ok []
  | t :: rest =>
    match lookupTopic store t with
    | some df =>
      match getCol df "timestamp" with
      | some ts =>
        match topicMinMax store rest with
        | Except.ok l => Except.ok ((seriesMin ts, seriesMax ts) :: l)
        | Except.error e => Except.error e
      | none => Except.error MergeError.missingColumn
    | none => Except.error MergeError.missingTopic

/-- Truncation toward zero, modelling the `dtype=np.int64` cast. -/
def truncQ (q : ℚ) : ℤ := Int.tdiv q.num (q.den : ℤ)

/-- `np.arange(start, stop, step, dtype=np.int64)` for a positive step:
`⌈(stop-start)/step⌉` values `start + i*step`, each truncated to an
integer. -/
def arangeInt (start stop step : ℚ) : List ℤ :=
  (List.range (max 0 ⌈qdiv (qsub stop start) step⌉).toNat).map
    (fun i => truncQ (qadd start (qmul step (mkRat (Int.ofNat i) 1))))

/-- The fixed-step branch of `concat`: scan the topics in sorted key order
for the global `ts_min`/`ts_max`, then build
`np.arange(ts_min, ts_max - dt*1e6, dt*1e6, dtype=np.int64)`.  A `None` or
NaN bound makes `np.arange` raise (`numericError`). -/
def dtTimeline (store : List (String × DFrame)) (dtv : ℚ) : Except MergeError (List Cell) :=
  match topicMinMax store (List.insertionSort (fun a b : String => a ≤ b)
      (store.map (fun e => e.1))) with
  | Except.ok mins =>
    match mins.foldl (fun acc p => foldMin acc p.1) none,
        mins.foldl (fun acc p => foldMax acc p.2) none with
    | some (some a), some (some b) =>
      Except.ok ((arangeInt a (qsub b (qmul dtv 1000000)) (qmul dtv 1000000)).map
        (fun z => some ((z : ℚ))))
    | _, _ => Except.error MergeError.numericError
  | Except.error e => Except.error e

/-- Embedding of `PX4MessageDict.concat(topics, on, dt)`: `dt` takes the
fixed-step branch, otherwise `on` the reference-topic branch, otherwise
`raise IOError('must pass dt or on')`.  (The source parameter `on` is a
reserved token in Lean and is spelled `onTopic` here.) -/
def concat (store : List (String × DFrame)) (topics : Option (List String))
    (onTopic : Option String) (dt : Option ℚ) : Except MergeError DFrame :=
  match dt with
  | some dtv =>
    match dtTimeline store dtv with
    | Except.ok ts => concatCore store ts topics
    | Except.error e => Except.error e
  | none =>
    match onTopic with
    | some onT =>
      match lookupTopic store onT with
      | some df =>
        match getCol df "timestamp" with
        | some ts => concatCore store ts topics
        | none => Except.error MergeError.missingColumn
      | none => Except.error MergeError.missingTopic
    | none => Except.error MergeError.invalidConfig

/-- Extract the frame of a successful merge (default frame on error);
used only to state concrete witnesses. -/
def exGetD : Except MergeError DFrame → DFrame
  | Except.ok m => m
  | Except.error _ => { cols := [], index := [] }

/-! ### The caller-visible state of an estimator's input series

`plot_allan_std_dev` and `plot_autocorrelation` both begin with
`data.index = pd.TimedeltaIndex(data.index, unit='s')`, an in-place
assignment to the caller's series object; every later statement either reads
`data` or rebinds the local name to a resampled copy.  The caller-visible
effect of a call is therefore exactly this index conversion, modelled as an
explicit state transformer. -/

/-- A pandas series as the caller sees it: whether its index is already a
`TimedeltaIndex`, the index entries (in nanoseconds when timedelta), and the
data values. -/
structure PSeries where
  idxTd : Bool
  index : List Cell
  values : List Cell
deriving DecidableEq

/-- `pd.TimedeltaIndex(idx, unit='s')`: a numeric seconds index is converted
to timedeltas (`* 1e9` nanoseconds, NaN becoming NaT); an index that is
already a `TimedeltaIndex` is taken as is (the unit applies to numeric input
only). -/
def timedeltaIndexSeconds (s : PSeries) : PSeries :=
  if s.idxTd then s
  else { idxTd := true,
         index := s.index.map (fun v => v.map (fun q => qmul q 1000000000)),
         values := s.values }

/-- The caller-visible effect of `plot_allan_std_dev(data, ...)` on `data`:
the in-place `data.index = pd.TimedeltaIndex(data.index, unit='s')`. -/
def plot_allan_std_dev_state (data : PSeries) : PSeries :=
  timedeltaIndexSeconds data

/-- The caller-visible effect of `plot_autocorrelation(data, ...)` on
`data`: the same in-place index assignment (the subsequent
`data = data.resample(...)` only rebinds the local name). -/
def plot_autocorrelation_state (data : PSeries) : PSeries :=
  timedeltaIndexSeconds data

/-! ### Claim C5 -/

/-- A series with a plain numeric (seconds) index, as `plot_allan_std_dev`
and `plot_autocorrelation` accept. -/
def c5series : PSeries := { idxTd := false, index := [some 1], values := [some 2] }

/-- A series already carrying a timedelta index. -/
def c5td : PSeries := { idxTd := true, index := [some 5], values := [some 7] }

/-- C5 counterexample: on a series with a numeric seconds index, both
estimators mutate the caller's series — the in-place
`data.index = pd.TimedeltaIndex(data.index, unit='s')` replaces the index —
so the series is not left unchanged. -/
theorem c5_counterexample :
    plot_allan_std_dev_state c5series ≠ c5series ∧
      plot_autocorrelation_state c5series ≠ c5series := by
  constructor <;> decide

/-- C5 (amended): both estimators leave the series *values* unchanged, and a
series already carrying a timedelta index is left entirely unchanged; but a
series with a plain numeric (seconds) index has its index reassigned in
place to the corresponding timedelta index (nanoseconds, `* 1e9`), so the
caller's series is not unchanged in general. -/
theorem c5_amended (s : PSeries) :
    (plot_allan_std_dev_state s).values = s.values ∧
      (plot_autocorrelation_state s).values = s.values ∧
      (s.idxTd = true → plot_allan_std_dev_state s = s ∧ plot_autocorrelation_state s = s) ∧
      (s.idxTd = false →
        (plot_allan_std_dev_state s).index =
            s.index.map (fun v => v.map (fun q => q * 1000000000)) ∧
          (plot_allan_std_dev_state s).idxTd = true) := by
  unfold plot_allan_std_dev_state plot_autocorrelation_state timedeltaIndexSeconds
  cases hs : s.idxTd with
  | true => simp [hs]
  | false => simp [hs, qmul_eq]

/-- C5 amended, witness: a timedelta-indexed series is left unchanged. -/
theorem c5_amended_witness :
    plot_allan_std_dev_state c5td = c5td ∧ plot_autocorrelation_state c5td = c5td :=
  (c5_amended c5td).2.2.1 rfl

/-! ### Claim C7 -/

theorem px4Init_mem (d store : List (String × DFrame))
    (h : px4MessageDictInit d = some store) :
    ∀ topic df, (topic, df) ∈ d →
      ∃ dfo, px4InitTable topic df = some dfo ∧ (topic, dfo) ∈ store := by
  induction d generalizing store with
  | nil =>
    intro topic df hm
    exact absurd hm (List.not_mem_nil _)
  | cons e rest ih =>
    intro topic df hm
    obtain ⟨t0, df0⟩ := e
    unfold px4MessageDictInit at h
    cases h1 : px4InitTable t0 df0 with
    | none => rw [h1] at h; exact Option.noConfusion h
    | some dfo0 =>
      rw [h1] at h
      cases h2 : px4MessageDictInit rest with
      | none => rw [h2] at h; exact Option.noConfusion h
      | some store0 =>
        rw [h2] at h
        injection h with h3
        rcases List.mem_cons.mp hm with hm1 | hm2
        · injection hm1 with he1 he2
          subst he1
          subst he2
          exact ⟨dfo0, h1, by rw [← h3]; exact List.mem_cons_self _ _⟩
        · obtain ⟨dfo, hdfo, hmemo⟩ := ih store0 h2 topic df hm2
          exact ⟨dfo, hdfo, by rw [← h3]; exact List.mem_cons_of_mem _ hmemo⟩

/-- C7: when store construction succeeds, every input topic table appears in
the store with every non-`timestamp` column renamed to
`t_<topic>__f_<column>`, the `timestamp` column left unrenamed, the column
values untouched, and the row index equal to the `timestamp` column
multiplied by `1000` (microseconds to nanoseconds, NaN becoming NaT). -/
theorem c7_store_construction (d store : List (String × DFrame))
    (h : px4MessageDictInit d = some store) (topic : String) (df : DFrame)
    (ts : List Cell) (hmem : (topic, df) ∈ d)
    (hts : getCol df "timestamp" = some ts) :
    ((topic,
      { cols := df.cols.map (fun c =>
          (if c.1 = "timestamp" then c.1 else "t_" ++ topic ++ "__f_" ++ c.1, c.2)),
        index := ts.map (fun v => v.map (fun q => q * 1000)) }) : String × DFrame) ∈ store := by
  obtain ⟨dfo, hdfo, hmemo⟩ := px4Init_mem d store h topic df hmem
  unfold px4InitTable at hdfo
  rw [hts] at hdfo
  injection hdfo with h2
  have hfun : (fun v : Cell => v.map (fun q => q * 1000)) =
      fun v : Cell => v.map (fun q => qmul q 1000) := by
    funext v
    cases v with
    | none => rfl
    | some q => simp [qmul_eq]
  rw [hfun, h2]
  exact hmemo

/-- A raw one-topic store for the C7 witness. -/
def d1 : List (String × DFrame) :=
  [("a", { cols := [("timestamp", [some 2]), ("x", [some 3])], index := [] })]

/-- The constructed store for `d1`. -/
def d1store : List (String × DFrame) :=
  [("a", { cols := [("timestamp", [some 2]), ("t_a__f_x", [some 3])], index := [some 2000] })]

/-- C7 witness: constructing the store from `d1` yields `d1store`, whose
single table has the renamed column and the `* 1000` index. -/
theorem c7_store_construction_witness :
    (("a",
      { cols := ([("timestamp", [some 2]), ("x", [some 3])] :
            List (String × List Cell)).map (fun c =>
          (if c.1 = "timestamp" then c.1 else "t_" ++ "a" ++ "__f_" ++ c.1, c.2)),
        index := ([some 2] : List Cell).map (fun v => v.map (fun q => q * 1000)) }) :
      String × DFrame) ∈ d1store :=
  c7_store_construction d1 d1store (by decide) "a"
    { cols := [("timestamp", [some 2]), ("x", [some 3])], index := [] }
    [some 2] (by decide) (by decide)

/-! ### Merge error routing (claims C3 and C6) -/

theorem mergeAsofE_ok (m df m2 : DFrame) (h : mergeAsofE m df = Except.ok m2) :
    ∃ mts dts, getCol m "timestamp" = some mts ∧ getCol df "timestamp" = some dts ∧
      keysValid mts = true ∧ keysValid dts = true ∧
      m2.cols = m.cols ++ (nonTsCols df).map (fun c =>
        (c.1, mts.map (fun t =>
          match asofIdx dts t with
          | some j => c.2.getD j none
          | none => none))) ∧
      m2.index = m.index := by
  unfold mergeAsofE at h
  rcases hm : getCol m "timestamp" with _ | mts <;>
    rcases hd : getCol df "timestamp" with _ | dts <;>
      rw [hm, hd] at h
  · exact Except.noConfusion h
  · exact Except.noConfusion h
  · exact Except.noConfusion h
  · simp only [] at h
    by_cases hk : (keysValid mts && keysValid dts) = true
    · rw [if_pos hk] at h
      injection h with h2
      have hk12 := hk
      simp only [Bool.and_eq_true] at hk12
      exact ⟨mts, dts, rfl, rfl, hk12.1, hk12.2, by rw [← h2], by rw [← h2]⟩
    · rw [if_neg hk] at h
      exact Except.noConfusion h

theorem mergeAsofE_error (m df : DFrame) (e : MergeError)
    (h : mergeAsofE m df = Except.error e) :
    e = MergeError.badKeys ∨ e = MergeError.missingColumn := by
  unfold mergeAsofE at h
  rcases hm : getCol m "timestamp" with _ | mts <;>
    rcases hd : getCol df "timestamp" with _ | dts <;>
      rw [hm, hd] at h
  · injection h with he; exact Or.inr he.symm
  · injection h with he; exact Or.inr he.symm
  · injection h with he; exact Or.inr he.symm
  · simp only [] at h
    by_cases hk : (keysValid mts && keysValid dts) = true
    · rw [if_pos hk] at h
      exact Except.noConfusion h
    · rw [if_neg hk] at h
      injection h with he
      exact Or.inl he.symm

theorem mergeLoop_ne_invalidConfig (store : List (String × DFrame)) (ts : List String) :
    ∀ m, mergeLoop store m ts ≠ Except.error MergeError.invalidConfig := by
  induction ts with
  | nil =>
    intro m h
    unfold mergeLoop at h
    exact Except.noConfusion h
  | cons t rest ih =>
    intro m h
    unfold mergeLoop at h
    cases hl : lookupTopic store t with
    | none =>
      rw [hl] at h
      injection h with he
      exact MergeError.noConfusion he
    | some df =>
      rw [hl] at h
      simp only [] at h
      cases ha : mergeAsofE m df with
      | ok m2 =>
        rw [ha] at h
        exact ih m2 h
      | error e =>
        rw [ha] at h
        injection h with he
        rcases mergeAsofE_error m df e ha with h1 | h1 <;>
          rw [he] at h1 <;> exact MergeError.noConfusion h1

theorem concatCore_ne_invalidConfig (store : List (String × DFrame))
    (timestamps : List Cell) (topics : Option (List String)) :
    concatCore store timestamps topics ≠ Except.error MergeError.invalidConfig := by
  intro h
  simp only [concatCore] at h
  cases hml : mergeLoop store { cols := [("timestamp", timestamps)], index := [] }
      (topics.getD (store.map (fun e => e.1))) with
  | ok m1 =>
    rw [hml] at h
    simp only [] at h
    by_cases hf : dfAllFinite (dfFfill (dfBfill (dfFfill (setTdIndex m1)))) = true
    · rw [if_pos hf] at h
      exact Except.noConfusion h
    · rw [if_neg hf] at h
      injection h with he
      exact MergeError.noConfusion he
  | error e =>
    rw [hml] at h
    injection h with he
    rw [he] at hml
    exact mergeLoop_ne_invalidConfig store _ _ hml

theorem topicMinMax_ne_invalidConfig (store : List (String × DFrame)) (keys : List String) :
    topicMinMax store keys ≠ Except.error MergeError.invalidConfig := by
  induction keys with
  | nil =>
    intro h
    unfold topicMinMax at h
    exact Except.noConfusion h
  | cons t rest ih =>
    intro h
    unfold topicMinMax at h
    cases hl : lookupTopic store t with
    | none =>
      rw [hl] at h
      injection h with he
      exact MergeError.noConfusion he
    | some df =>
      rw [hl] at h
      simp only [] at h
      cases hc : getCol df "timestamp" with
      | none =>
        rw [hc] at h
        injection h with he
        exact MergeError.noConfusion he
      | some ts =>
        rw [hc] at h
        simp only [] at h
        cases hr : topicMinMax store rest with
        | ok l =>
          rw [hr] at h
          exact Except.noConfusion h
        | error e =>
          rw [hr] at h
          injection h with he
          rw [he] at hr
          exact ih hr

theorem dtTimeline_ne_invalidConfig (store : List (String × DFrame)) (dtv : ℚ) :
    dtTimeline store dtv ≠ Except.error MergeError.invalidConfig := by
  intro h
  unfold dtTimeline at h
  cases hmm : topicMinMax store (List.insertionSort (fun a b : String => a ≤ b)
      (store.map (fun e => e.1))) with
  | error e =>
    rw [hmm] at h
    injection h with he
    rw [he] at hmm
    exact topicMinMax_ne_invalidConfig store _ hmm
  | ok mins =>
    rw [hmm] at h
    simp only [] at h
    split at h
    · exact Except.noConfusion h
    · injection h with he
      exact MergeError.noConfusion he

/-! ### Claim C3 -/

/-- A one-topic store used for C3: timestamps at 0 and 3e6 microseconds. -/
def s1 : List (String × DFrame) :=
  [("a", { cols := [("timestamp", [some 0, some 3000000]),
                    ("t_a__f_x", [some 1, some 2])], index := [] })]

/-- C3 counterexample: supplying *both* a reference topic and a fixed step
does not raise `InvalidMergeConfigError` — the merge proceeds (and succeeds)
on the fixed-step branch, `on` being silently ignored. -/
theorem c3_counterexample :
    concat s1 none (some "a") (some 1) =
      Except.ok (exGetD (concat s1 none (some "a") (some 1))) := by
  rfl

/-- C3 (amended): `concat` raises `InvalidMergeConfigError` exactly when
*neither* `on` nor `dt` is supplied; when both are supplied no error is
raised — the fixed-step (`dt`) branch takes precedence and `on` is ignored
entirely, as the second conjunct records. -/
theorem c3_amended (store : List (String × DFrame)) (topics : Option (List String))
    (onT : Option String) (dt : Option ℚ) :
    (concat store topics onT dt = Except.error MergeError.invalidConfig ↔
        onT = none ∧ dt = none) ∧
      (∀ dtv : ℚ, concat store topics onT (some dtv) = concat store topics none (some dtv)) := by
  constructor
  · constructor
    · intro h
      cases dt with
      | some dtv =>
        exfalso
        unfold concat at h
        simp only [] at h
        cases hdt : dtTimeline store dtv with
        | ok ts =>
          rw [hdt] at h
          exact concatCore_ne_invalidConfig store ts topics h
        | error e =>
          rw [hdt] at h
          injection h with he
          rw [he] at hdt
          exact dtTimeline_ne_invalidConfig store dtv hdt
      | none =>
        cases onT with
        | some T =>
          exfalso
          unfold concat at h
          simp only [] at h
          cases hl : lookupTopic store T with
          | none =>
            rw [hl] at h
            injection h with he
            exact MergeError.noConfusion he
          | some df =>
            rw [hl] at h
            simp only [] at h
            cases hc : getCol df "timestamp" with
            | none =>
              rw [hc] at h
              injection h with he
              exact MergeError.noConfusion he
            | some ts =>
              rw [hc] at h
              exact concatCore_ne_invalidConfig store ts topics h
        | none => exact ⟨rfl, rfl⟩
    · rintro ⟨h1, h2⟩
      subst h1
      subst h2
      rfl
  · intro dtv
    rfl

/-- C3 amended, witness: supplying neither option raises the error. -/
theorem c3_amended_witness :
    concat s1 none none none = Except.error MergeError.invalidConfig :=
  (c3_amended s1 none none none).1.mpr ⟨rfl, rfl⟩

/-! ### Claim C6 -/

theorem concatCore_ok_finite (store : List (String × DFrame)) (ts : List Cell)
    (topics : Option (List String)) (m : DFrame)
    (h : concatCore store ts topics = Except.ok m) : dfAllFinite m = true := by
  simp only [concatCore] at h
  cases hml : mergeLoop store { cols := [("timestamp", ts)], index := [] }
      (topics.getD (store.map (fun e => e.1))) with
  | error e =>
    rw [hml] at h
    exact Except.noConfusion h
  | ok m1 =>
    rw [hml] at h
    simp only [] at h
    by_cases hf : dfAllFinite (dfFfill (dfBfill (dfFfill (setTdIndex m1)))) = true
    · rw [if_pos hf] at h
      injection h with h2
      rw [← h2]
      exact hf
    · rw [if_neg hf] at h
      exact Except.noConfusion h

theorem concat_ok_core (store : List (String × DFrame)) (topics : Option (List String))
    (onT : Option String) (dt : Option ℚ) (m : DFrame)
    (h : concat store topics onT dt = Except.ok m) :
    ∃ ts, concatCore store ts topics = Except.ok m := by
  unfold concat at h
  cases dt with
  | some dtv =>
    simp only [] at h
    cases hdt : dtTimeline store dtv with
    | ok ts =>
      rw [hdt] at h
      exact ⟨ts, h⟩
    | error e =>
      rw [hdt] at h
      exact Except.noConfusion h
  | none =>
    cases onT with
    | some T =>
      simp only [] at h
      cases hl : lookupTopic store T with
      | none =>
        rw [hl] at h
        exact Except.noConfusion h
      | some df =>
        rw [hl] at h
        simp only [] at h
        cases hc : getCol df "timestamp" with
        | none =>
          rw [hc] at h
          exact Except.noConfusion h
        | some ts =>
          rw [hc] at h
          exact ⟨ts, h⟩
    | none => exact Except.noConfusion h

/-- C6: whenever `concat` returns a merged frame (rather than erroring),
every value in it is finite — the as-of gaps have been closed by the
forward/backward fills, and a frame still containing a non-finite value is
rejected by the final assertion (`assertFailed`) instead of being
returned. -/
theorem c6_merge_all_finite (store : List (String × DFrame))
    (topics : Option (List String)) (onT : Option String) (dt : Option ℚ) (m : DFrame)
    (h : concat store topics onT dt = Except.ok m) : dfAllFinite m = true := by
  obtain ⟨ts, hc⟩ := concat_ok_core store topics onT dt m h
  exact concatCore_ok_finite store ts topics m hc

/-- A two-topic store with a deliberate leading gap in topic `b` (its first
sample at t=4 comes after the reference topic's first timestamp 0). -/
def s2 : List (String × DFrame) :=
  [("a", { cols := [("timestamp", [some 0, some 10]),
                    ("t_a__f_x", [some 5, some 6])], index := [] }),
   ("b", { cols := [("timestamp", [some 4]),
                    ("t_b__f_y", [some 7])], index := [] })]

/-- C6 witness: merging `s2` on reference topic `a` succeeds, and the result
is entirely finite (the leading gap in `t_b__f_y` was back-filled). -/
theorem c6_merge_all_finite_witness :
    dfAllFinite (exGetD (concat s2 none (some "a") none)) = true := by
  have h : concat s2 none (some "a") none =
      Except.ok (exGetD (concat s2 none (some "a") none)) := by rfl
  exact c6_merge_all_finite s2 none (some "a") none _ h

/-! ### Claim C4 -/

/-- The qualified (non-`timestamp`) column names a topic contributes to a
merge. -/
def topicColNames (store : List (String × DFrame)) (t : String) : List String :=
  match lookupTopic store t with
  | some df => (nonTsCols df).map Prod.fst
  | none => []

/-- The column names contributed by a list of topics, in traversal order. -/
def allTopicColNames (store : List (String × DFrame)) : List String → List String
  | [] => []
  | t :: rest => topicColNames store t ++ allTopicColNames store rest

theorem mergeAsofE_ok_names (m df m2 : DFrame) (h : mergeAsofE m df = Except.ok m2) :
    m2.cols.map Prod.fst = m.cols.map Prod.fst ++ (nonTsCols df).map Prod.fst := by
  obtain ⟨mts, dts, hm, hd, hkm, hkd, hcols, hidx⟩ := mergeAsofE_ok m df m2 h
  rw [hcols]
  simp [List.map_map, Function.comp]

theorem mergeLoop_names (store : List (String × DFrame)) (tlist : List String) :
    ∀ m m', mergeLoop store m tlist = Except.ok m' →
      m'.cols.map Prod.fst = m.cols.map Prod.fst ++ allTopicColNames store tlist := by
  induction tlist with
  | nil =>
    intro m m' h
    unfold mergeLoop at h
    injection h with h2
    subst h2
    simp [allTopicColNames]
  | cons t rest ih =>
    intro m m' h
    unfold mergeLoop at h
    cases hl : lookupTopic store t with
    | none =>
      rw [hl] at h
      exact Except.noConfusion h
    | some df =>
      rw [hl] at h
      simp only [] at h
      cases ha : mergeAsofE m df with
      | error e =>
        rw [ha] at h
        exact Except.noConfusion h
      | ok m2 =>
        rw [ha] at h
        rw [ih m2 m' h, mergeAsofE_ok_names m df m2 ha]
        simp [allTopicColNames, topicColNames, hl, List.append_assoc]

theorem dfFfill_names (m : DFrame) : (dfFfill m).cols.map Prod.fst = m.cols.map Prod.fst := by
  simp [dfFfill, List.map_map, Function.comp]

theorem dfBfill_names (m : DFrame) : (dfBfill m).cols.map Prod.fst = m.cols.map Prod.fst := by
  simp [dfBfill, List.map_map, Function.comp]

theorem setTdIndex_names (m : DFrame) :
    (setTdIndex m).cols.map Prod.fst = m.cols.map Prod.fst := rfl

/-- Two stores with identical content, differing only in insertion order:
`b` before `a`, and `a` before `b`. -/
def storeBA : List (String × DFrame) :=
  [("b", { cols := [("timestamp", [some 0]), ("t_b__f_y", [some 1])], index := [] }),
   ("a", { cols := [("timestamp", [some 0]), ("t_a__f_x", [some 2])], index := [] })]

/-- `storeBA` with the two topics inserted in the opposite order. -/
def storeAB : List (String × DFrame) :=
  [("a", { cols := [("timestamp", [some 0]), ("t_a__f_x", [some 2])], index := [] }),
   ("b", { cols := [("timestamp", [some 0]), ("t_b__f_y", [some 1])], index := [] })]

/-- C4 counterexample: merging all topics of two stores with identical
content but different insertion orders yields different column orders —
`t_b__f_y` before `t_a__f_x` for `storeBA` (not lexicographic), and the
reverse for `storeAB` — so the join order is the store's insertion order,
not sorted-by-name, and the output column order is not stable across
insertion orders. -/
theorem c4_counterexample :
    (concat storeBA none (some "b") none).map (fun m => m.cols.map Prod.fst) =
        Except.ok ["timestamp", "t_b__f_y", "t_a__f_x"] ∧
      (concat storeAB none (some "b") none).map (fun m => m.cols.map Prod.fst) =
        Except.ok ["timestamp", "t_a__f_x", "t_b__f_y"] := by
  constructor <;> rfl

/-- C4 (amended): topics are joined onto the timeline in the traversal order
of the `topics` argument — defaulting to the store's insertion order when
unspecified — so the output columns are `timestamp` followed by each
topic's non-`timestamp` columns in that order; only the fixed-step branch's
min/max timestamp scan iterates over sorted keys.  The column order is
deterministic for a fixed insertion order, but not lexicographic and not
independent of insertion order. -/
theorem c4_amended (store : List (String × DFrame)) (topics : Option (List String))
    (onT : Option String) (dt : Option ℚ) (m : DFrame)
    (h : concat store topics onT dt = Except.ok m) :
    m.cols.map Prod.fst =
      "timestamp" :: allTopicColNames store (topics.getD (store.map (fun e => e.1))) := by
  obtain ⟨ts, hc⟩ := concat_ok_core store topics onT dt m h
  simp only [concatCore] at hc
  cases hml : mergeLoop store { cols := [("timestamp", ts)], index := [] }
      (topics.getD (store.map (fun e => e.1))) with
  | error e =>
    rw [hml] at hc
    exact Except.noConfusion hc
  | ok m1 =>
    rw [hml] at hc
    simp only [] at hc
    by_cases hf : dfAllFinite (dfFfill (dfBfill (dfFfill (setTdIndex m1)))) = true
    · rw [if_pos hf] at hc
      injection hc with h2
      rw [← h2, dfFfill_names, dfBfill_names, dfFfill_names, setTdIndex_names]
      rw [mergeLoop_names store _ _ m1 hml]
      simp
    · rw [if_neg hf] at hc
      exact Except.noConfusion hc

/-- C4 amended, witness: the merged columns of `storeBA` are `timestamp`
followed by the topics' columns in insertion order. -/
theorem c4_amended_witness :
    (exGetD (concat storeBA none (some "b") none)).cols.map Prod.fst =
      "timestamp" :: allTopicColNames storeBA (storeBA.map (fun e => e.1)) := by
  have h : concat storeBA none (some "b") none =
      Except.ok (exGetD (concat storeBA none (some "b") none)) := by rfl
  exact c4_amended storeBA none (some "b") none _ h

/-! ### Fill and lookup lemmas (claim C9) -/

theorem findCol_cons (a : String × List Cell) (t : List (String × List Cell)) (n : String) :
    findCol (a :: t) n = if a.1 == n then some a.2 else findCol t n := by
  by_cases ha : (a.1 == n) = true
  · simp [findCol, List.find?, ha]
  · simp [findCol, List.find?, ha]

theorem findCol_append_left (l1 l2 : List (String × List Cell)) (n : String)
    (v : List Cell) (h : findCol l1 n = some v) :
    findCol (l1 ++ l2) n = some v := by
  induction l1 with
  | nil => simp [findCol] at h
  | cons a t ih =>
    rw [List.cons_append, findCol_cons]
    rw [findCol_cons] at h
    by_cases ha : (a.1 == n) = true
    · rw [if_pos ha] at h ⊢
      exact h
    · rw [if_neg ha] at h ⊢
      exact ih h

theorem findCol_map_val (f : List Cell → List Cell) (l : List (String × List Cell))
    (n : String) :
    findCol (l.map (fun c => (c.1, f c.2))) n = (findCol l n).map f := by
  induction l with
  | nil => simp [findCol]
  | cons a t ih =>
    rw [List.map_cons, findCol_cons, findCol_cons]
    by_cases ha : (a.1 == n) = true
    · rw [if_pos ha, if_pos ha]
      rfl
    · rw [if_neg ha, if_neg ha]
      exact ih

theorem ffillCol_length (acc : Cell) (l : List Cell) :
    (ffillCol acc l).length = l.length := by
  induction l generalizing acc with
  | nil => rfl
  | cons c rest ih =>
    cases c with
    | some v => simp [ffillCol, ih]
    | none => simp [ffillCol, ih]

theorem bfillCol_length (l : List Cell) : (bfillCol l).length = l.length := by
  induction l with
  | nil => rfl
  | cons c rest ih =>
    cases c with
    | some v => simp [bfillCol, ih]
    | none =>
      show (match bfillCol rest with
        | [] => [none]
        | d :: ds => d :: d :: ds).length = rest.length + 1
      cases hb : bfillCol rest with
      | nil =>
        rw [hb] at ih
        simp [← ih]
      | cons d ds =>
        rw [hb] at ih
        simp only [List.length_cons] at ih ⊢
        rw [ih]

theorem ffillCol_getD_some (l : List Cell) :
    ∀ (acc : Cell) (i : ℕ) (v : ℚ), l.getD i none = some v →
      (ffillCol acc l).getD i none = some v := by
  induction l with
  | nil =>
    intro acc i v h
    rw [List.getD_nil] at h
    exact Option.noConfusion h
  | cons c rest ih =>
    intro acc i v h
    cases i with
    | zero =>
      rw [List.getD_cons_zero] at h
      subst h
      rfl
    | succ n =>
      rw [List.getD_cons_succ] at h
      cases c with
      | some w =>
        show (some w :: ffillCol (some w) rest).getD (n + 1) none = some v
        rw [List.getD_cons_succ]
        exact ih (some w) n v h
      | none =>
        show (acc :: ffillCol acc rest).getD (n + 1) none = some v
        rw [List.getD_cons_succ]
        exact ih acc n v h

theorem bfillCol_getD_some (l : List Cell) :
    ∀ (i : ℕ) (v : ℚ), l.getD i none = some v →
      (bfillCol l).getD i none = some v := by
  induction l with
  | nil =>
    intro i v h
    rw [List.getD_nil] at h
    exact Option.noConfusion h
  | cons c rest ih =>
    intro i v h
    cases c with
    | some w =>
      cases i with
      | zero =>
        rw [List.getD_cons_zero] at h
        exact h ▸ rfl
      | succ n =>
        rw [List.getD_cons_succ] at h
        show (some w :: bfillCol rest).getD (n + 1) none = some v
        rw [List.getD_cons_succ]
        exact ih n v h
    | none =>
      cases i with
      | zero =>
        rw [List.getD_cons_zero] at h
        exact Option.noConfusion h
      | succ n =>
        rw [List.getD_cons_succ] at h
        have hr := ih n v h
        show (match bfillCol rest with
          | [] => [none]
          | d :: ds => d :: d :: ds).getD (n + 1) none = some v
        cases hb : bfillCol rest with
        | nil =>
          exfalso
          have hlen : rest.length = 0 := by
            rw [← bfillCol_length rest, hb]
            rfl
          rw [List.length_eq_zero.mp hlen, List.getD_nil] at h
          exact Option.noConfusion h
        | cons d ds =>
          rw [hb] at hr
          rw [List.getD_cons_succ]
          exact hr

theorem ffillCol_all_some (l : List Cell) :
    ∀ acc : Cell, l.all Option.isSome = true → ffillCol acc l = l := by
  induction l with
  | nil => intro acc _; rfl
  | cons c rest ih =>
    intro acc h
    simp only [List.all_cons, Bool.and_eq_true] at h
    cases c with
    | none => exact absurd h.1 (by simp)
    | some v =>
      show some v :: ffillCol (some v) rest = some v :: rest
      rw [ih (some v) h.2]

theorem bfillCol_all_some (l : List Cell) (h : l.all Option.isSome = true) :
    bfillCol l = l := by
  induction l with
  | nil => rfl
  | cons c rest ih =>
    simp only [List.all_cons, Bool.and_eq_true] at h
    cases c with
    | none => exact absurd h.1 (by simp)
    | some v =>
      show some v :: bfillCol rest = some v :: rest
      rw [ih h.2]

/-- The column transform applied after the merge: `ffill`, then `bfill`,
then `pad` (a second `ffill`). -/
def fillCol3 (v : List Cell) : List Cell :=
  ffillCol none (bfillCol (ffillCol none v))

theorem fillCol3_length (v : List Cell) : (fillCol3 v).length = v.length := by
  rw [fillCol3, ffillCol_length, bfillCol_length, ffillCol_length]

theorem fillCol3_getD_some (v : List Cell) (i : ℕ) (x : ℚ)
    (h : v.getD i none = some x) : (fillCol3 v).getD i none = some x :=
  ffillCol_getD_some _ none i x (bfillCol_getD_some _ i x (ffillCol_getD_some _ none i x h))

theorem fillCol3_all_some (v : List Cell) (h : v.all Option.isSome = true) :
    fillCol3 v = v := by
  rw [fillCol3, ffillCol_all_some v none h, bfillCol_all_some v h, ffillCol_all_some v none h]

theorem pipeCols (m1 : DFrame) :
    (dfFfill (dfBfill (dfFfill (setTdIndex m1)))).cols =
      m1.cols.map (fun c => (c.1, fillCol3 c.2)) := by
  simp only [dfFfill, dfBfill, setTdIndex, List.map_map]
  rfl

theorem getD_map_cell (f : Cell → Cell) (l : List Cell) (i : ℕ) (h : i < l.length) :
    (l.map f).getD i none = f (l.getD i none) := by
  induction l generalizing i with
  | nil => simp at h
  | cons a t ih =>
    cases i with
    | zero => rfl
    | succ n =>
      rw [List.map_cons, List.getD_cons_succ, List.getD_cons_succ]
      exact ih n (Nat.lt_of_succ_lt_succ (by simpa using h))

/-! ### The as-of index is the most recent sample at or before (claim C9) -/

theorem mem_of_getLast_eq (l : List ℕ) :
    ∀ a : ℕ, l.getLast? = some a → a ∈ l := by
  induction l with
  | nil =>
    intro a h
    exact Option.noConfusion h
  | cons x t ih =>
    intro a h
    cases t with
    | nil =>
      have hx : x = a := by simpa [List.getLast?] using h
      rw [hx]
      exact List.mem_cons_self _ _
    | cons y t2 =>
      rw [List.getLast?_cons_cons] at h
      exact List.mem_cons_of_mem x (ih a h)

theorem le_getLast_of_sorted (l : List ℕ) :
    l.Pairwise (· < ·) → ∀ j, l.getLast? = some j → ∀ k ∈ l, k ≤ j := by
  induction l with
  | nil =>
    intro _ j h
    exact Option.noConfusion h
  | cons a t ih =>
    intro hp j hj k hk
    cases t with
    | nil =>
      have ha : a = j := by simpa [List.getLast?] using hj
      have hka : k = a := by simpa using hk
      rw [hka, ha]
    | cons b t2 =>
      rw [List.getLast?_cons_cons] at hj
      rcases List.mem_cons.mp hk with rfl | hk2
      · have hjmem : j ∈ b :: t2 := mem_of_getLast_eq _ j hj
        exact le_of_lt ((List.pairwise_cons.mp hp).1 j hjmem)
      · exact ih (List.pairwise_cons.mp hp).2 j hj k hk2

theorem asofIdx_spec (dts : List Cell) (tv : Cell) (j : ℕ) (h : asofIdx dts tv = some j) :
    j < dts.length ∧ ole (dts.getD j none) tv = true ∧
      ∀ k, k < dts.length → ole (dts.getD k none) tv = true → k ≤ j := by
  unfold asofIdx at h
  have hmem : j ∈ (List.range dts.length).filter (fun i => ole (dts.getD i none) tv) :=
    mem_of_getLast_eq _ j h
  have hm2 := List.mem_filter.mp hmem
  refine ⟨List.mem_range.mp hm2.1, hm2.2, ?_⟩
  intro k hk hke
  have hkmem : k ∈ (List.range dts.length).filter (fun i => ole (dts.getD i none) tv) :=
    List.mem_filter.mpr ⟨List.mem_range.mpr hk, hke⟩
  have hpair : ((List.range dts.length).filter
      (fun i => ole (dts.getD i none) tv)).Pairwise (· < ·) :=
    List.Pairwise.sublist (List.filter_sublist _) (List.pairwise_lt_range _)
  exact le_getLast_of_sorted _ hpair j h k hkmem

/-! ### The merge-loop invariant and claim C9 -/

theorem mergeLoop_spec (store : List (String × DFrame)) (timeline : List Cell)
    (tlist : List String) :
    ∀ m m' : DFrame,
      mergeLoop store m tlist = Except.ok m' →
      getCol m "timestamp" = some timeline →
      (∀ cc ∈ m.cols, cc.2.length = timeline.length) →
      (getCol m' "timestamp" = some timeline ∧
       (∀ cc ∈ m.cols, cc ∈ m'.cols) ∧
       (∀ cc ∈ m'.cols, cc.2.length = timeline.length) ∧
       (∀ t ∈ tlist, ∀ df, lookupTopic store t = some df →
         ∀ dts, getCol df "timestamp" = some dts →
         ∀ c vals, (c, vals) ∈ df.cols → c ≠ "timestamp" →
         (c, timeline.map (fun tv =>
            match asofIdx dts tv with
            | some j => vals.getD j none
            | none => none)) ∈ m'.cols)) := by
  induction tlist with
  | nil =>
    intro m m' h hts hlen
    unfold mergeLoop at h
    injection h with h2
    subst h2
    exact ⟨hts, fun cc hc => hc, hlen, fun t ht => absurd ht (List.not_mem_nil t)⟩
  | cons t rest ih =>
    intro m m' h hts hlen
    unfold mergeLoop at h
    cases hl : lookupTopic store t with
    | none =>
      rw [hl] at h
      exact Except.noConfusion h
    | some df =>
      rw [hl] at h
      simp only [] at h
      cases ha : mergeAsofE m df with
      | error e =>
        rw [ha] at h
        exact Except.noConfusion h
      | ok m2 =>
        rw [ha] at h
        obtain ⟨mts, dts0, hm, hd, hkm, hkd, hcols, hidx⟩ := mergeAsofE_ok m df m2 ha
        rw [hts] at hm
        injection hm with hmts
        subst hmts
        have hts2 : getCol m2 "timestamp" = some timeline := by
          show findCol m2.cols "timestamp" = some timeline
          rw [hcols]
          exact findCol_append_left _ _ _ _ hts
        have hlen2 : ∀ cc ∈ m2.cols, cc.2.length = timeline.length := by
          intro cc hcc
          rw [hcols] at hcc
          rcases List.mem_append.mp hcc with hcc | hcc
          · exact hlen cc hcc
          · obtain ⟨c0, hc0, hcc2⟩ := List.mem_map.mp hcc
            rw [← hcc2]
            exact List.length_map _ _
        obtain ⟨i1, i2, i3, i4⟩ := ih m2 m' h hts2 hlen2
        refine ⟨i1, ?_, i3, ?_⟩
        · intro cc hcc
          exact i2 cc (by rw [hcols]; exact List.mem_append_left _ hcc)
        · intro t2 ht2 df2 hl2 dts2 hd2 c vals hcv hcne
          rcases List.mem_cons.mp ht2 with rfl | ht2
          · rw [hl] at hl2
            injection hl2 with hdf
            subst hdf
            rw [hd] at hd2
            injection hd2 with hdts
            subst hdts
            apply i2
            rw [hcols]
            apply List.mem_append_right
            apply List.mem_map.mpr
            refine ⟨(c, vals), ?_, rfl⟩
            unfold nonTsCols
            apply List.mem_filter.mpr
            refine ⟨hcv, ?_⟩
            simp [hcne]
          · exact i4 t2 ht2 df2 hl2 dts2 hd2 c vals hcv hcne

set_option linter.unusedVariables false in
/-- C9: for a merge driven by reference topic `T` (whose timestamp column is
`timeline`, all finite), a successful `concat` returns a frame whose
`timestamp` column *is* `timeline` — so the result has exactly as many rows
as `T` has samples — and in which every non-`timestamp` column `(c, vals)`
of every selected topic appears as a column of the same name whose entry at
each timeline position `i` is `vals` at the as-of match `asofIdx`, i.e. the
value of the most recent sample at or before `timeline[i]` (the last
conjunct proves `asofIdx` is exactly that index: an in-range match at or
before the timeline entry, and maximal among such).  The `hnames`
hypothesis rules out duplicate qualified column names across the selected
topics, the collision-free regime in which `pd.merge_asof` performs no
`_x`/`_y` suffixing. -/
theorem c9_reference_merge (store : List (String × DFrame)) (tlist : List String)
    (T : String) (dfT : DFrame) (timeline : List Cell) (m : DFrame)
    (hT : lookupTopic store T = some dfT)
    (hTts : getCol dfT "timestamp" = some timeline)
    (hfin : timeline.all Option.isSome = true)
    (hnames : ("timestamp" :: allTopicColNames store tlist).Nodup)
    (h : concat store (some tlist) (some T) none = Except.ok m) :
    getCol m "timestamp" = some timeline ∧
    (∀ cc ∈ m.cols, cc.2.length = timeline.length) ∧
    (∀ t ∈ tlist, ∀ df, lookupTopic store t = some df →
      ∀ dts, getCol df "timestamp" = some dts →
      ∀ c vals, (c, vals) ∈ df.cols → c ≠ "timestamp" →
      ∃ out, (c, out) ∈ m.cols ∧ out.length = timeline.length ∧
        ∀ i j v, i < timeline.length →
          asofIdx dts (timeline.getD i none) = some j →
          vals.getD j none = some v →
          out.getD i none = some v) ∧
    (∀ dts : List Cell, ∀ tv : Cell, ∀ j, asofIdx dts tv = some j →
      j < dts.length ∧ ole (dts.getD j none) tv = true ∧
      ∀ k, k < dts.length → ole (dts.getD k none) tv = true → k ≤ j) := by
  unfold concat at h
  simp only [] at h
  rw [hT] at h
  simp only [] at h
  rw [hTts] at h
  simp only [] at h
  simp only [concatCore, Option.getD_some] at h
  cases hml : mergeLoop store { cols := [("timestamp", timeline)], index := [] } tlist with
  | error e =>
    rw [hml] at h
    exact Except.noConfusion h
  | ok m1 =>
    rw [hml] at h
    simp only [] at h
    have hm0ts : getCol ({ cols := [("timestamp", timeline)], index := [] } : DFrame)
        "timestamp" = some timeline := by
      show findCol [("timestamp", timeline)] "timestamp" = some timeline
      rw [findCol_cons]
      simp
    have hm0len : ∀ cc ∈ ({ cols := [("timestamp", timeline)], index := [] } : DFrame).cols,
        cc.2.length = timeline.length := by
      intro cc hcc
      have : cc = ("timestamp", timeline) := by simpa using hcc
      rw [this]
    obtain ⟨i1, i2, i3, i4⟩ := mergeLoop_spec store timeline tlist _ m1 hml hm0ts hm0len
    by_cases hf : dfAllFinite (dfFfill (dfBfill (dfFfill (setTdIndex m1)))) = true
    · rw [if_pos hf] at h
      injection h with h2
      have hmcols : m.cols = m1.cols.map (fun c => (c.1, fillCol3 c.2)) := by
        rw [← h2, pipeCols]
      refine ⟨?_, ?_, ?_, fun dts tv j hj => asofIdx_spec dts tv j hj⟩
      · show findCol m.cols "timestamp" = some timeline
        rw [hmcols, findCol_map_val]
        rw [show findCol m1.cols "timestamp" = some timeline from i1]
        show some (fillCol3 timeline) = some timeline
        rw [fillCol3_all_some timeline hfin]
      · intro cc hcc
        rw [hmcols] at hcc
        obtain ⟨c0, hc0, hcc2⟩ := List.mem_map.mp hcc
        rw [← hcc2]
        show (fillCol3 c0.2).length = timeline.length
        rw [fillCol3_length]
        exact i3 c0 hc0
      · intro t ht df hl dts hd c vals hcv hcne
        have hjoined := i4 t ht df hl dts hd c vals hcv hcne
        refine ⟨fillCol3 (timeline.map (fun tv =>
          match asofIdx dts tv with
          | some j => vals.getD j none
          | none => none)), ?_, ?_, ?_⟩
        · rw [hmcols]
          exact List.mem_map.mpr ⟨_, hjoined, rfl⟩
        · rw [fillCol3_length, List.length_map]
        · intro i j v hi hasof hv
          apply fillCol3_getD_some
          rw [getD_map_cell _ timeline i hi, hasof]
          exact hv
    · rw [if_neg hf] at h
      exact Except.noConfusion h

/-- The spec's end-to-end scenario in miniature: topic `A` at three
timestamps, topic `B` at two. -/
def s9 : List (String × DFrame) :=
  [("A", { cols := [("timestamp", [some 0, some 1, some 2]),
                    ("t_A__f_x", [some 10, some 11, some 12])], index := [] }),
   ("B", { cols := [("timestamp", [some 0, some 2]),
                    ("t_B__f_y", [some 20, some 21])], index := [] })]

/-- C9 witness: merging `s9` on reference topic `A` yields a frame whose
timestamp column is exactly `A`'s three timestamps. -/
theorem c9_reference_merge_witness :
    getCol (exGetD (concat s9 (some ["A", "B"]) (some "A") none)) "timestamp" =
      some [some 0, some 1, some 2] := by
  have h : concat s9 (some ["A", "B"]) (some "A") none =
      Except.ok (exGetD (concat s9 (some ["A", "B"]) (some "A") none)) := by rfl
  exact (c9_reference_merge s9 ["A", "B"] "A"
    { cols := [("timestamp", [some 0, some 1, some 2]),
               ("t_A__f_x", [some 10, some 11, some 12])], index := [] }
    [some 0, some 1, some 2] _ (by rfl) (by rfl) (by decide) (by decide) h).1

end Px4
